import Mathlib

/-!
Verification of the SkiaColor-Extract color-extraction core.

The source is shallowly embedded: JS numbers are modelled as exact rationals
(all arithmetic the claims depend on stays within ℚ), the RGBA pixel buffer is
a flat `List Nat` of byte samples, and the k-means loop of `quantizeColors`
(src/utils/colorUtils.ts) is explicit state passing over the centroid list.
Randomness of the centroid initialization is factored into an explicit
parameter (either the sampled centroid list or a random stream).
-/

namespace SkiaColor

/-- RGB color with rational components (matches the `RGB` interface of
src/types; components may be fractional centroid intermediates). -/
structure RGB where
  r : ℚ
  g : ℚ
  b : ℚ
deriving DecidableEq, Repr

/-- HSL color, hue in degrees, matching the `HSL` interface. -/
structure HSL where
  h : ℚ
  s : ℚ
  l : ℚ
deriving DecidableEq, Repr

/-- JS `Math.round`: round half toward positive infinity. -/
def jsRound (q : ℚ) : ℤ := ⌊q + 1/2⌋

/-- Lowercase hexadecimal digit, as produced by JS `Number.toString(16)`. -/
def hexDigit (n : Nat) : Char :=
  if n < 10 then Char.ofNat (48 + n) else Char.ofNat (87 + n)

/-- Digit accumulation for `Number.toString(16)` on naturals. -/
def natToHexAux (n : Nat) (acc : List Char) : List Char :=
  if h : n = 0 then acc
  else natToHexAux (n / 16) (hexDigit (n % 16) :: acc)
decreasing_by exact Nat.div_lt_self (Nat.pos_of_ne_zero h) (by norm_num)

/-- JS `n.toString(16)` for a natural number. -/
def natToHexStr (n : Nat) : String :=
  if n = 0 then "0" else String.mk (natToHexAux n [])

/-- The `toHex` helper inside `rgbToHex`: round, render base 16, pad a single
digit with a leading zero (source domain is channels in [0,255]). -/
def toHexChannel (q : ℚ) : String :=
  let s := natToHexStr (jsRound q).toNat
  if s.length = 1 then "0" ++ s else s

/-- `rgbToHex` from src/utils/colorUtils.ts. -/
def rgbToHex (c : RGB) : String :=
  "#" ++ toHexChannel c.r ++ toHexChannel c.g ++ toHexChannel c.b

/-- `rgbToHsl` from src/utils/colorUtils.ts.  The JS `switch (max)` matches
`case r` before `case g` before `case b`, which the if-chain mirrors; in the
final branch `max = b` necessarily holds. -/
def rgbToHsl (c : RGB) : HSL :=
  let r := c.r / 255
  let g := c.g / 255
  let b := c.b / 255
  let mx := max r (max g b)
  let mn := min r (min g b)
  let l := (mx + mn) / 2
  if mx = mn then { h := 0, s := 0, l := l }
  else
    let d := mx - mn
    let s := if l > 1/2 then d / (2 - mx - mn) else d / (mx + mn)
    let h :=
      if mx = r then (g - b) / d + (if g < b then 6 else 0)
      else if mx = g then (b - r) / d + 2
      else (r - g) / d + 4
    { h := h / 6 * 360, s := s, l := l }

/-- `colorDistanceSq` from src/utils/colorUtils.ts. -/
def colorDistanceSq (c1 c2 : RGB) : ℚ :=
  (c1.r - c2.r) ^ 2 + (c1.g - c2.g) ^ 2 + (c1.b - c2.b) ^ 2

/-- `PaletteColor` record from src/types. -/
structure PaletteColor where
  rgb : RGB
  hsl : HSL
  hex : String
  population : Nat
  score : Nat
  isVibrant : Bool
  isDark : Bool
  isLight : Bool
deriving DecidableEq, Repr

/-- `Palette` record from src/types (`dominant` required, the role fields
nullable). -/
structure Palette where
  dominant : PaletteColor
  vibrant : Option PaletteColor
  muted : Option PaletteColor
  darkVibrant : Option PaletteColor
  lightVibrant : Option PaletteColor
  allColors : List PaletteColor
deriving DecidableEq, Repr

/-- The pixels the E-step of `quantizeColors` visits: for each 4-byte RGBA
sample in the buffer, keep the RGB triple when alpha ≥ 128 (the source loop
runs `i` over `pixels.length / 4` with direct indexing and skips pixels with
`pixels[idx + 3] < 128`; a trailing fragment shorter than 4 bytes is never
indexed, matching the floor division). -/
def opaquePixels : List Nat → List RGB
  | r :: g :: b :: a :: rest =>
      if 128 ≤ a then ⟨(r : ℚ), (g : ℚ), (b : ℚ)⟩ :: opaquePixels rest
      else opaquePixels rest
  | _ => []

/-- Scan tail of the nearest-centroid search: strictly smaller distance wins,
so the lowest-indexed centroid is kept on ties. -/
def nearestAux (p : RGB) : List RGB → Nat → ℚ → Nat → Nat
  | [], _, _, best => best
  | c :: rest, i, minDist, best =>
      let d := colorDistanceSq p c
      if d < minDist then nearestAux p rest (i + 1) d i
      else nearestAux p rest (i + 1) minDist best

/-- Index of the nearest centroid to `p` (the source starts with
`minDist = Infinity, clusterIndex = 0`, so the first centroid's distance
always replaces the initial state; an empty centroid list yields index 0). -/
def nearestIdx (cents : List RGB) (p : RGB) : Nat :=
  match cents with
  | [] => 0
  | c :: rest => nearestAux p rest 1 (colorDistanceSq p c) 0

/-- Pixels assigned to cluster `c` during one E-step. -/
def assignedTo (opq cents : List RGB) (c : Nat) : List RGB :=
  opq.filter (fun p => nearestIdx cents p == c)

/-- `clusterCounts` after one E-step: per cluster, the number of opaque
pixels assigned to it. -/
def eStepCounts (k : Nat) (opq cents : List RGB) : List Nat :=
  (List.range k).map (fun c => (assignedTo opq cents c).length)

/-- M-step: each cluster with at least one assigned pixel moves to the
arithmetic mean of its pixels, empty clusters keep their previous centroid. -/
def mStep (k : Nat) (opq cents : List RGB) : List RGB :=
  (List.range k).map (fun c =>
    let assigned := assignedTo opq cents c
    if assigned.length = 0 then cents.getD c ⟨0, 0, 0⟩
    else
      { r := (assigned.map RGB.r).sum / (assigned.length : ℚ),
        g := (assigned.map RGB.g).sum / (assigned.length : ℚ),
        b := (assigned.map RGB.b).sum / (assigned.length : ℚ) })

/-- The fixed-count k-means iterations: state is the centroid list together
with the `clusterCounts` of the most recent E-step (the accumulators start at
zero and the materialization reads the counts of the last iteration). -/
def kmeansLoop (k : Nat) (opq : List RGB) :
    Nat → List RGB × List Nat → List RGB × List Nat
  | 0, st => st
  | n + 1, st =>
      let counts := eStepCounts k opq st.1
      let cents := mStep k opq st.1
      kmeansLoop k opq n (cents, counts)

/-- `maxIterations` from the source. -/
def maxIterations : Nat := 5

/-- Conversion of a surviving centroid into a `PaletteColor` (step 3 of
`quantizeColors`). -/
def mkPaletteColor (c : RGB) (count : Nat) : PaletteColor :=
  let hsl := rgbToHsl c
  { rgb := { r := (jsRound c.r : ℚ), g := (jsRound c.g : ℚ), b := (jsRound c.b : ℚ) },
    hsl := hsl,
    hex := rgbToHex c,
    population := count,
    score := count,
    isVibrant := decide (hsl.s > 0.5 ∧ hsl.l > 0.3 ∧ hsl.l < 0.8),
    isDark := decide (hsl.l < 0.4),
    isLight := decide (hsl.l > 0.7) }

/-- Materialization: walk the centroids with their final counts in index
order, dropping clusters whose count is 0 (the source's
`map((c, i) => ...)` followed by `filter(c !== null)`). -/
def materialize : List RGB → List Nat → List PaletteColor
  | c :: cs, n :: ns =>
      (if n = 0 then [] else [mkPaletteColor c n]) ++ materialize cs ns
  | _, _ => []

/-- Stable insertion preserving descending population order: an element is
placed before the first strictly-smaller population, and before no
equal-population element that preceded it. -/
def insertPop (x : PaletteColor) : List PaletteColor → List PaletteColor
  | [] => [x]
  | y :: ys => if y.population ≤ x.population then x :: y :: ys else y :: insertPop x ys

/-- Stable sort by population descending, the behavior of the source's
`sort((a, b) => b.population - a.population)` (JS `Array.prototype.sort` is
stable). -/
def sortPop : List PaletteColor → List PaletteColor
  | [] => []
  | x :: xs => insertPop x (sortPop xs)

/-- Steps 2-3 of `quantizeColors` before the final sort: the output of the
clustering pass in centroid-index order. -/
def clusterPass (pixels : List Nat) (k : Nat) (init : List RGB) : List PaletteColor :=
  let opq := opaquePixels pixels
  let st := kmeansLoop k opq maxIterations (init, List.replicate k 0)
  materialize st.1 st.2

/-- `quantizeColors` with the randomly sampled initial centroids passed
explicitly (the only use of `Math.random` in the source is producing them). -/
def quantizeColorsWithInit (pixels : List Nat) (k : Nat) (init : List RGB) :
    List PaletteColor :=
  sortPop (clusterPass pixels k init)

/-- `quantizeColors` for a possibly negative `k` argument:
`new Float64Array(k * 3)` and `new Int32Array(k)` throw a `RangeError` for
negative lengths, so the call aborts before producing a value; this is
modelled by `none`. -/
def quantizeColors (pixels : List Nat) (k : ℤ) (init : List RGB) :
    Option (List PaletteColor) :=
  if k < 0 then none
  else some (quantizeColorsWithInit pixels k.toNat init)

/-- Read one byte of the buffer at a JS index (out-of-range and negative
indexes read as a default, harmless value; such reads only occur for
degenerate random draws or the empty buffer, where the value is never
observed in the output). -/
def pixelGet (pixels : List Nat) (i : ℤ) : ℚ :=
  if i < 0 then 0 else (pixels.getD i.toNat 0 : ℚ)

/-- Initial centroid sampling: draw `i`-th random value, scale by the pixel
count `pixels.length / 4` (exact JS division), floor, and read the RGB bytes
at that pixel. -/
def sampleInit (pixels : List Nat) (k : Nat) (rand : Nat → ℚ) : List RGB :=
  (List.range k).map (fun i =>
    let idx := ⌊rand i * ((pixels.length : ℚ) / 4)⌋ * 4
    { r := pixelGet pixels idx,
      g := pixelGet pixels (idx + 1),
      b := pixelGet pixels (idx + 2) })

/-- `quantizeColors` driven by an explicit random stream. -/
def quantizeColorsRand (pixels : List Nat) (k : Nat) (rand : Nat → ℚ) :
    List PaletteColor :=
  quantizeColorsWithInit pixels k (sampleInit pixels k rand)

/-- Accumulator of the role-selection `forEach` in
`SkiaService.processImage` (src/services/skiaService.ts). -/
structure RoleAcc where
  bestVibrant : Option PaletteColor
  maxVibrantScore : ℚ
  darkVibrant : Option PaletteColor
  lightVibrant : Option PaletteColor
  muted : Option PaletteColor
deriving DecidableEq, Repr

/-- The `!cur || c.population > cur.population` update shared by the
darkVibrant, lightVibrant and muted roles. -/
def betterPop (cur : Option PaletteColor) (c : PaletteColor) : Option PaletteColor :=
  match cur with
  | none => some c
  | some d => if d.population < c.population then some c else some d

/-- One step of the classification `forEach` over a candidate color. -/
def roleStep (domPop : ℚ) (acc : RoleAcc) (c : PaletteColor) : RoleAcc :=
  let sat := c.hsl.s
  let lum := c.hsl.l
  let popR : ℚ := (c.population : ℚ) / domPop
  let acc1 :=
    if sat > 0.3 ∧ lum > 0.3 ∧ lum < 0.8 then
      let score := sat * (1 + popR * 0.5)
      if score > acc.maxVibrantScore then
        { acc with bestVibrant := some c, maxVibrantScore := score }
      else acc
    else acc
  let acc2 :=
    if lum < 0.4 ∧ sat > 0.2 then { acc1 with darkVibrant := betterPop acc1.darkVibrant c }
    else acc1
  let acc3 :=
    if lum > 0.7 ∧ sat > 0.2 then { acc2 with lightVibrant := betterPop acc2.lightVibrant c }
    else acc2
  if sat < 0.3 ∧ lum > 0.2 ∧ lum < 0.8 then { acc3 with muted := betterPop acc3.muted c }
  else acc3

/-- Initial accumulator: `bestVibrant = null`, `maxVibrantScore = -1`, the
other roles `null`. -/
def initRoleAcc : RoleAcc :=
  { bestVibrant := none, maxVibrantScore := -1,
    darkVibrant := none, lightVibrant := none, muted := none }

/-- The classification stage of `SkiaService.processImage` (steps 6 and the
fallback, src/services/skiaService.ts lines 124-183), as a function of the
quantized cluster sequence.  On an empty sequence `colors[0]` is undefined
and the fallback line dereferences `dominant.isVibrant` on it, so the stage
aborts with a TypeError instead of returning a `Palette`; this is modelled
by `none`. -/
def classifyPalette : List PaletteColor → Option Palette
  | [] => none
  | dominant :: rest =>
      let colors := dominant :: rest
      let domPop : ℚ := if dominant.population = 0 then 1 else (dominant.population : ℚ)
      let acc := colors.foldl (roleStep domPop) initRoleAcc
      let bestVibrant :=
        match acc.bestVibrant with
        | some v => v
        | none => if dominant.isVibrant then dominant else rest.headD dominant
      some { dominant := dominant,
             vibrant := some bestVibrant,
             muted := acc.muted,
             darkVibrant := acc.darkVibrant,
             lightVibrant := acc.lightVibrant,
             allColors := colors }

/-- Vibrant eligibility as the specification words it: saturation in
(0.3, 1] and lightness in (0.3, 0.8). -/
def vibrantEligible (c : PaletteColor) : Bool :=
  decide (0.3 < c.hsl.s ∧ c.hsl.s ≤ 1 ∧ 0.3 < c.hsl.l ∧ c.hsl.l < 0.8)

/-- Vibrant eligibility as the code tests it: `sat > 0.3 && lum > 0.3 &&
lum < 0.8` (no upper saturation bound). -/
def vibrantEligibleCode (c : PaletteColor) : Bool :=
  decide (c.hsl.s > 0.3 ∧ c.hsl.l > 0.3 ∧ c.hsl.l < 0.8)

/-- The vibrant score `saturation * (1 + popRatio * 0.5)`. -/
def vibScore (domPop : ℚ) (c : PaletteColor) : ℚ :=
  c.hsl.s * (1 + ((c.population : ℚ) / domPop) * 0.5)

/-- First occurrence of the maximum score in a list: later elements replace
the current best only with a strictly higher score. -/
def firstStrictMax (score : PaletteColor → ℚ) : List PaletteColor → Option PaletteColor
  | [] => none
  | x :: xs =>
      match firstStrictMax score xs with
      | none => some x
      | some y => if score x < score y then some y else some x

/-- The vibrant role as the specification describes it: the first-seen
strictly-highest-score candidate among the eligible ones, with the stated
fallback chain when none is eligible. -/
def vibrantSpec (dominant : PaletteColor) (rest : List PaletteColor) : PaletteColor :=
  let domPop : ℚ := if dominant.population = 0 then 1 else (dominant.population : ℚ)
  match firstStrictMax (vibScore domPop) ((dominant :: rest).filter vibrantEligible) with
  | some v => v
  | none => if dominant.isVibrant then dominant else rest.headD dominant

/-- The two lowercase hex digits of a byte, the specification's "exact
lowercase 2-digit-per-channel encoding". -/
def hexByte (n : Nat) : String :=
  String.mk [hexDigit (n / 16), hexDigit (n % 16)]

/-- The exact lowercase hex encoding of an integral RGB color. -/
def exactHex (r g b : Nat) : String :=
  "#" ++ hexByte r ++ hexByte g ++ hexByte b

/-- A buffer of n identical fully-opaque RGBA samples. -/
def solidBuffer (r g b : Nat) : Nat → List Nat
  | 0 => []
  | n + 1 => r :: g :: b :: 255 :: solidBuffer r g b n

/-- The normalized maximum channel (the source's `max` local). -/
def maxChannel (c : RGB) : ℚ :=
  max (c.r / 255) (max (c.g / 255) (c.b / 255))

/-- The normalized minimum channel (the source's `min` local). -/
def minChannel (c : RGB) : ℚ :=
  min (c.r / 255) (min (c.g / 255) (c.b / 255))

/-- The bestVibrant/maxVibrantScore component of the classification fold. -/
def vibFold (domPop : ℚ) (st : Option PaletteColor × ℚ) (c : PaletteColor) :
    Option PaletteColor × ℚ :=
  if c.hsl.s > 0.3 ∧ c.hsl.l > 0.3 ∧ c.hsl.l < 0.8 then
    if vibScore domPop c > st.2 then (some c, vibScore domPop c) else st
  else st

/-- Helper shape: the final vibrant state reached from state `st` given the
first-strict-max of the remaining eligible candidates. -/
def vibAfter (domPop : ℚ) (st : Option PaletteColor × ℚ) (o : Option PaletteColor) :
    Option PaletteColor × ℚ :=
  match o with
  | none => st
  | some y => if st.2 < vibScore domPop y then (some y, vibScore domPop y) else st

/-- Helper shape: the final vibrant state reached from the initial
`(null, -1)` state. -/
def vibPick (domPop : ℚ) (o : Option PaletteColor) : Option PaletteColor × ℚ :=
  match o with
  | none => (none, -1)
  | some y => (some y, vibScore domPop y)

/-- The vibrant role exactly as the code's fold computes it: first-seen
strict-max over the code-eligible candidates, else the fallback chain. -/
def vibChoiceCode (dominant : PaletteColor) (rest : List PaletteColor) : PaletteColor :=
  let domPop : ℚ := if dominant.population = 0 then 1 else (dominant.population : ℚ)
  match firstStrictMax (vibScore domPop)
      ((dominant :: rest).filter vibrantEligibleCode) with
  | some v => v
  | none => if dominant.isVibrant then dominant else rest.headD dominant

/-- Witness input for the C7 and C10 checks: a saturated green. -/
def wVibrant : PaletteColor :=
  { rgb := ⟨10, 200, 10⟩, hsl := ⟨120, 0.9, 0.5⟩, hex := "#0ac80a",
    population := 10, score := 10, isVibrant := true, isDark := false,
    isLight := false }

/-- Witness input: a mildly saturated red. -/
def wMild : PaletteColor :=
  { rgb := ⟨150, 100, 100⟩, hsl := ⟨0, 0.4, 0.5⟩, hex := "#966464",
    population := 5, score := 5, isVibrant := false, isDark := false,
    isLight := false }

/-- Witness input: a pure gray. -/
def wGray : PaletteColor :=
  { rgb := ⟨128, 128, 128⟩, hsl := ⟨0, 0, 0.5⟩, hex := "#808080",
    population := 7, score := 7, isVibrant := false, isDark := false,
    isLight := false }

/-- Witness input: a near-white gray. -/
def wLightGray : PaletteColor :=
  { rgb := ⟨230, 230, 230⟩, hsl := ⟨0, 0.1, 0.9⟩, hex := "#e6e6e6",
    population := 3, score := 3, isVibrant := false, isDark := false,
    isLight := true }

/-! ### Generic lemmas about the population sort -/

theorem insertPop_perm (x : PaletteColor) (l : List PaletteColor) :
    (insertPop x l).Perm (x :: l) := by
  induction l with
  | nil => exact List.Perm.refl _
  | cons y ys ih =>
      by_cases h : y.population ≤ x.population
      · simp [insertPop, h]
      · simp only [insertPop, if_neg h]
        exact (ih.cons y).trans (List.Perm.swap x y ys)

theorem sortPop_perm (l : List PaletteColor) : (sortPop l).Perm l := by
  induction l with
  | nil => exact List.Perm.refl _
  | cons x xs ih => exact (insertPop_perm x (sortPop xs)).trans (ih.cons x)

theorem insertPop_pairwise (x : PaletteColor) (l : List PaletteColor)
    (hl : l.Pairwise (fun a b => b.population ≤ a.population)) :
    (insertPop x l).Pairwise (fun a b => b.population ≤ a.population) := by
  induction l with
  | nil => simp [insertPop]
  | cons y ys ih =>
      rw [List.pairwise_cons] at hl
      by_cases h : y.population ≤ x.population
      · simp only [insertPop, if_pos h]
        refine List.Pairwise.cons ?_ (List.Pairwise.cons hl.1 hl.2)
        intro z hz
        rcases List.mem_cons.mp hz with rfl | hz
        · exact h
        · have := hl.1 z hz; omega
      · simp only [insertPop, if_neg h]
        refine List.Pairwise.cons ?_ (ih hl.2)
        intro z hz
        rcases List.mem_cons.mp ((insertPop_perm x ys).mem_iff.mp hz) with rfl | hz'
        · omega
        · exact hl.1 z hz'

theorem sortPop_pairwise (l : List PaletteColor) :
    (sortPop l).Pairwise (fun a b => b.population ≤ a.population) := by
  induction l with
  | nil => simp [sortPop]
  | cons x xs ih => exact insertPop_pairwise x (sortPop xs) ih

theorem insertPop_filter (x : PaletteColor) (l : List PaletteColor) (p : Nat) :
    (insertPop x l).filter (fun c => c.population == p)
      = ((x :: l).filter (fun c => c.population == p)) := by
  induction l with
  | nil => rfl
  | cons y ys ih =>
      by_cases h : y.population ≤ x.population
      · simp [insertPop, h]
      · simp only [insertPop, if_neg h, List.filter_cons, ih]
        by_cases hx : x.population = p
        · have hy : ¬ y.population = p := by omega
          simp [hx, hy]
        · simp [hx]

theorem sortPop_filter (l : List PaletteColor) (p : Nat) :
    (sortPop l).filter (fun c => c.population == p)
      = l.filter (fun c => c.population == p) := by
  induction l with
  | nil => rfl
  | cons x xs ih =>
      simp only [sortPop, insertPop_filter, List.filter_cons, ih]

/-! ### Basic lemmas about the clustering pass -/

theorem eStepCounts_length (k : Nat) (opq cents : List RGB) :
    (eStepCounts k opq cents).length = k := by
  simp [eStepCounts]

theorem kmeansLoop_counts_length (k : Nat) (opq : List RGB) :
    ∀ (n : Nat) (st : List RGB × List Nat), st.2.length = k →
      ((kmeansLoop k opq n st).2).length = k := by
  intro n
  induction n with
  | zero => intro st h; exact h
  | succ m ih =>
      intro st h
      exact ih _ (eStepCounts_length k opq st.1)

theorem materialize_length_le (cents : List RGB) (counts : List Nat) :
    (materialize cents counts).length ≤ counts.length := by
  induction cents generalizing counts with
  | nil => simp [materialize]
  | cons c cs ih =>
      cases counts with
      | nil => simp [materialize]
      | cons n ns =>
          simp only [materialize, List.length_append, List.length_cons]
          have := ih ns
          by_cases h : n = 0 <;> simp [h] <;> omega

theorem materialize_pop_pos (cents : List RGB) (counts : List Nat) :
    ∀ c ∈ materialize cents counts, 1 ≤ c.population := by
  induction cents generalizing counts with
  | nil => simp [materialize]
  | cons c cs ih =>
      cases counts with
      | nil => simp [materialize]
      | cons n ns =>
          intro x hx
          simp only [materialize, List.mem_append] at hx
          rcases hx with hx | hx
          · by_cases h : n = 0
            · simp [h] at hx
            · simp only [if_neg h, List.mem_singleton] at hx
              subst hx
              simp [mkPaletteColor]
              omega
          · exact ih ns x hx

theorem list_sum_map_add {α : Type} (l : List α) (f g : α → Nat) :
    (l.map (fun x => f x + g x)).sum = (l.map f).sum + (l.map g).sum := by
  induction l with
  | nil => simp
  | cons a as ih => simp [ih]; omega

theorem sum_indicator_range (m k : Nat) :
    ((List.range k).map (fun c => if (m == c) = true then 1 else 0)).sum
      = if m < k then 1 else 0 := by
  have key : ∀ n : Nat, ((List.range n).map (fun c => if m = c then 1 else 0)).sum
      = if m < n then 1 else 0 := by
    intro n
    induction n with
    | zero => simp
    | succ n ih =>
        rw [List.range_succ]
        simp only [List.map_append, List.sum_append, ih, List.map_cons, List.map_nil,
          List.sum_cons, List.sum_nil]
        split_ifs <;> omega
  simpa [beq_iff_eq] using key k

theorem eStepCounts_sum_le (k : Nat) (opq cents : List RGB) :
    (eStepCounts k opq cents).sum ≤ opq.length := by
  induction opq with
  | nil => simp [eStepCounts, assignedTo]
  | cons p ps ih =>
      have hstep : eStepCounts k (p :: ps) cents
          = (List.range k).map (fun c =>
              (assignedTo ps cents c).length
                + if (nearestIdx cents p == c) = true then 1 else 0) := by
        simp only [eStepCounts, assignedTo, List.filter_cons]
        refine List.map_congr_left ?_
        intro c _
        by_cases h : (nearestIdx cents p == c) = true
        · simp [h]
        · simp [h]
      rw [hstep, list_sum_map_add, sum_indicator_range]
      have := ih
      simp only [eStepCounts] at this
      simp only [List.length_cons]
      split_ifs <;> omega

theorem kmeansLoop_counts_sum_le (k : Nat) (opq : List RGB) :
    ∀ (n : Nat) (st : List RGB × List Nat), st.2.sum ≤ opq.length →
      ((kmeansLoop k opq n st).2).sum ≤ opq.length := by
  intro n
  induction n with
  | zero => intro st h; exact h
  | succ m ih => intro st h; exact ih _ (eStepCounts_sum_le k opq st.1)

theorem materialize_sum_le (cents : List RGB) (counts : List Nat) :
    ((materialize cents counts).map PaletteColor.population).sum ≤ counts.sum := by
  induction cents generalizing counts with
  | nil => simp [materialize]
  | cons c cs ih =>
      cases counts with
      | nil => simp [materialize]
      | cons n ns =>
          simp only [materialize, List.map_append, List.sum_append, List.sum_cons]
          have := ih ns
          by_cases h : n = 0 <;> simp [h, mkPaletteColor] <;> omega

/-! ### The claims about `quantizeColors` output shape -/

/-- C1: for every well-formed pixel buffer and every k ≥ 0, `quantizeColors`
returns at most k clusters and every returned cluster has population ≥ 1
(zero-population clusters are dropped), whatever initial centroids were
sampled. -/
theorem quantize_size_le_k_and_pop_pos (pixels : List Nat) (k : Nat) (init : List RGB)
    (hlen : pixels.length % 4 = 0) (hbytes : ∀ v ∈ pixels, v ≤ 255) :
    (quantizeColorsWithInit pixels k init).length ≤ k ∧
      ∀ c ∈ quantizeColorsWithInit pixels k init, 1 ≤ c.population := by
  constructor
  · show (sortPop (clusterPass pixels k init)).length ≤ k
    rw [(sortPop_perm _).length_eq]
    show (materialize _ _).length ≤ k
    refine le_trans (materialize_length_le _ _) ?_
    exact le_of_eq
      (kmeansLoop_counts_length k (opaquePixels pixels) maxIterations
        (init, List.replicate k 0) (by simp))
  · intro c hc
    have hc' := (sortPop_perm (clusterPass pixels k init)).mem_iff.mp hc
    exact materialize_pop_pos _ _ c hc'

/-- Witness for C1 at a concrete single-pixel red buffer with k = 8. -/
theorem quantize_size_le_k_and_pop_pos_check :
    ([255, 0, 0, 255] : List Nat).length % 4 = 0 ∧
      (quantizeColorsWithInit [255, 0, 0, 255] 8 []).length ≤ 8 ∧
      (quantizeColorsWithInit [255, 0, 0, 255] 8 []).all (fun c => 1 ≤ c.population) := by
  have h := quantize_size_le_k_and_pop_pos [255, 0, 0, 255] 8 [] (by decide) (by decide)
  refine ⟨by decide, h.1, ?_⟩
  rw [List.all_eq_true]
  intro c hc
  simpa using h.2 c hc

/-- C5: the returned sequence is sorted by population descending, and for
every population value the subsequence of entries carrying it is exactly the
corresponding subsequence of the clustering pass's centroid-index-ordered
output (stable sort). -/
theorem quantize_sorted_and_stable (pixels : List Nat) (k : Nat) (init : List RGB) :
    (quantizeColorsWithInit pixels k init).Pairwise
        (fun a b => b.population ≤ a.population) ∧
      ∀ p : Nat,
        (quantizeColorsWithInit pixels k init).filter (fun c => c.population == p)
          = (clusterPass pixels k init).filter (fun c => c.population == p) := by
  exact ⟨sortPop_pairwise _, fun p => sortPop_filter _ p⟩

/-- C6: the populations of the returned clusters sum to at most the number
of pixels whose alpha is ≥ 128 (the length of `opaquePixels`). -/
theorem quantize_pop_sum_le (pixels : List Nat) (k : Nat) (init : List RGB)
    (hk : 1 ≤ k) :
    ((quantizeColorsWithInit pixels k init).map PaletteColor.population).sum
      ≤ (opaquePixels pixels).length := by
  show ((sortPop (clusterPass pixels k init)).map PaletteColor.population).sum
      ≤ (opaquePixels pixels).length
  rw [((sortPop_perm (clusterPass pixels k init)).map PaletteColor.population).sum_eq]
  show ((materialize _ _).map PaletteColor.population).sum ≤ (opaquePixels pixels).length
  refine le_trans (materialize_sum_le _ _) ?_
  exact kmeansLoop_counts_sum_le k (opaquePixels pixels) maxIterations
    (init, List.replicate k 0) (by simp)

/-- Witness for C6 at a concrete two-pixel buffer with k = 2. -/
theorem quantize_pop_sum_le_check :
    (1 : Nat) ≤ 2 ∧
      ((quantizeColorsWithInit [10, 20, 30, 255, 10, 20, 30, 0] 2 []).map
          PaletteColor.population).sum
        ≤ (opaquePixels [10, 20, 30, 255, 10, 20, 30, 0]).length :=
  ⟨by decide, quantize_pop_sum_le [10, 20, 30, 255, 10, 20, 30, 0] 2 [] (by decide)⟩

/-! ### Transparent buffers -/

theorem opaquePixels_eq_nil (pixels : List Nat)
    (h : ∀ i < pixels.length / 4, pixels.getD (4 * i + 3) 0 < 128) :
    opaquePixels pixels = [] := by
  induction pixels using opaquePixels.induct with
  | case1 r g b a rest halpha ih =>
      exfalso
      have h0 := h 0 (by simp; omega)
      simp only [Nat.mul_zero, Nat.zero_add] at h0
      simp only [List.getD_cons_succ, List.getD_cons_zero] at h0
      omega
  | case2 r g b a rest halpha ih =>
      simp only [opaquePixels, if_neg halpha]
      refine ih ?_
      intro i hi
      have hlen : (r :: g :: b :: a :: rest).length / 4 = rest.length / 4 + 1 := by
        simp [List.length_cons]; omega
      have h' := h (i + 1) (by omega)
      have hidx : 4 * (i + 1) + 3 = (4 * i + 3) + 4 := by omega
      rw [hidx] at h'
      simpa only [List.getD_cons_succ] using h'
  | case3 pixels hshape =>
      cases pixels with
      | nil => rfl
      | cons x xs =>
          cases xs with
          | nil => rfl
          | cons y ys =>
              cases ys with
              | nil => rfl
              | cons z zs =>
                  cases zs with
                  | nil => rfl
                  | cons w ws => exact absurd rfl (hshape x y z w ws)

theorem eStepCounts_nil (k : Nat) (cents : List RGB) :
    eStepCounts k [] cents = List.replicate k 0 := by
  simp [eStepCounts, assignedTo, List.map_const']

theorem kmeansLoop_counts_nil_opq (k : Nat) :
    ∀ (n : Nat) (st : List RGB × List Nat), st.2 = List.replicate k 0 →
      (kmeansLoop k [] n st).2 = List.replicate k 0 := by
  intro n
  induction n with
  | zero => intro st h; exact h
  | succ m ih => intro st h; exact ih _ (eStepCounts_nil k st.1)

theorem materialize_replicate_zero (cents : List RGB) (k : Nat) :
    materialize cents (List.replicate k 0) = [] := by
  induction cents generalizing k with
  | nil => simp [materialize]
  | cons c cs ih =>
      cases k with
      | zero => simp [materialize]
      | succ m => simpa [materialize, List.replicate_succ] using ih m

/-- C4: if every pixel of the buffer has alpha < 128 (the empty buffer
included), `quantizeColors` returns the empty sequence, and the
classification stage of `processImage` applied to that empty sequence yields
no `Palette` at all (the fallback line dereferences the undefined `dominant`,
so the stage aborts rather than returning a `Palette` with a null
`dominant`). -/
theorem transparent_empty_palette (pixels : List Nat) (k : Nat) (init : List RGB)
    (h : ∀ i < pixels.length / 4, pixels.getD (4 * i + 3) 0 < 128) :
    quantizeColorsWithInit pixels k init = [] ∧
      classifyPalette (quantizeColorsWithInit pixels k init) = none := by
  have hq : quantizeColorsWithInit pixels k init = [] := by
    show sortPop (clusterPass pixels k init) = []
    have hcp : clusterPass pixels k init = [] := by
      show materialize _ _ = []
      rw [opaquePixels_eq_nil pixels h]
      rw [kmeansLoop_counts_nil_opq k maxIterations (init, List.replicate k 0) rfl]
      exact materialize_replicate_zero _ k
    rw [hcp]; rfl
  exact ⟨hq, by rw [hq]; rfl⟩

/-- Witness for C4 at a concrete one-pixel fully transparent buffer. -/
theorem transparent_empty_palette_check :
    quantizeColorsWithInit [9, 8, 7, 0] 8 [] = [] ∧
      classifyPalette (quantizeColorsWithInit [9, 8, 7, 0] 8 []) = none :=
  transparent_empty_palette [9, 8, 7, 0] 8 [] (by decide)

/-! ### k ≤ 0 -/

theorem materialize_counts_nil (cents : List RGB) : materialize cents [] = [] := by
  cases cents <;> rfl

theorem quantize_k_zero (pixels : List Nat) (init : List RGB) :
    quantizeColorsWithInit pixels 0 init = [] := by
  show sortPop (clusterPass pixels 0 init) = []
  have h := kmeansLoop_counts_length 0 (opaquePixels pixels) maxIterations
    (init, List.replicate 0 0) (by simp)
  have hnil : (kmeansLoop 0 (opaquePixels pixels) maxIterations
      (init, List.replicate 0 0)).2 = [] := List.eq_nil_of_length_eq_zero h
  show sortPop (materialize _ _) = []
  rw [hnil, materialize_counts_nil]
  rfl

/-- C3 counterexample: at k = -1 the call does not produce an empty
sequence; `new Float64Array(k * 3)` aborts with a RangeError (modelled as
`none`), so the claim as stated fails for negative k. -/
theorem quantize_k_neg_fails : quantizeColors [255, 0, 0, 255] (-1) [] = none := by
  rfl

/-- C3 amended: for k = 0, `quantizeColors` produces the empty sequence
without error; for every negative k the typed-array construction fails with
a RangeError instead of returning a sequence. -/
theorem quantize_k_nonpos (pixels : List Nat) (init : List RGB) :
    quantizeColors pixels 0 init = some [] ∧
      ∀ k : ℤ, k < 0 → quantizeColors pixels k init = none := by
  constructor
  · simp [quantizeColors, quantize_k_zero]
  · intro k hk
    simp [quantizeColors, hk]

/-- Witness for C3's amended claim at a concrete buffer, k = 0 and k = -2. -/
theorem quantize_k_nonpos_check :
    quantizeColors [1, 2, 3, 255] 0 [] = some [] ∧
      quantizeColors [1, 2, 3, 255] (-2) [] = none :=
  ⟨(quantize_k_nonpos [1, 2, 3, 255] []).1,
   (quantize_k_nonpos [1, 2, 3, 255] []).2 (-2) (by decide)⟩

/-! ### Hex encoding -/

theorem jsRound_natCast (m : Nat) : jsRound (m : ℚ) = (m : ℤ) := by
  unfold jsRound
  rw [show ((m : ℚ) + 1 / 2) = ((m : ℤ) : ℚ) + 1 / 2 by push_cast; ring]
  rw [Int.floor_int_add]
  norm_num

theorem natToHexAux_zero (acc : List Char) : natToHexAux 0 acc = acc := by
  rw [natToHexAux.eq_def]
  simp

theorem natToHexAux_pos (n : Nat) (acc : List Char) (h : n ≠ 0) :
    natToHexAux n acc = natToHexAux (n / 16) (hexDigit (n % 16) :: acc) := by
  rw [natToHexAux.eq_def]
  simp [h]

theorem natToHexStr_lt16 (m : Nat) (h1 : m ≠ 0) (h2 : m < 16) :
    natToHexStr m = String.mk [hexDigit m] := by
  unfold natToHexStr
  rw [if_neg h1, natToHexAux_pos m [] h1, Nat.div_eq_of_lt h2,
    natToHexAux_zero, Nat.mod_eq_of_lt h2]

theorem natToHexStr_ge16 (m : Nat) (h1 : 16 ≤ m) (h2 : m < 256) :
    natToHexStr m = String.mk [hexDigit (m / 16), hexDigit (m % 16)] := by
  have hm0 : m ≠ 0 := by omega
  have hd0 : m / 16 ≠ 0 := by omega
  have hdlt : m / 16 < 16 := by omega
  unfold natToHexStr
  rw [if_neg hm0, natToHexAux_pos m [] hm0, natToHexAux_pos _ _ hd0,
    show m / 16 / 16 = 0 by omega, natToHexAux_zero, Nat.mod_eq_of_lt hdlt]

theorem toHexChannel_natCast (m : Nat) (h : m ≤ 255) :
    toHexChannel (m : ℚ) = hexByte m := by
  unfold toHexChannel hexByte
  rw [jsRound_natCast, Int.toNat_natCast]
  by_cases h0 : m = 0
  · subst h0; decide
  · by_cases h16 : m < 16
    · rw [natToHexStr_lt16 m h0 h16, Nat.mod_eq_of_lt h16, show m / 16 = 0 by omega]
      rfl
    · rw [natToHexStr_ge16 m (by omega) (by omega)]
      rfl

theorem rgbToHex_natCast (r g b : Nat) (hr : r ≤ 255) (hg : g ≤ 255) (hb : b ≤ 255) :
    rgbToHex ⟨(r : ℚ), (g : ℚ), (b : ℚ)⟩ = exactHex r g b := by
  unfold rgbToHex exactHex
  rw [show (RGB.mk (r : ℚ) (g : ℚ) (b : ℚ)).r = (r : ℚ) from rfl,
    show (RGB.mk (r : ℚ) (g : ℚ) (b : ℚ)).g = (g : ℚ) from rfl,
    show (RGB.mk (r : ℚ) (g : ℚ) (b : ℚ)).b = (b : ℚ) from rfl,
    toHexChannel_natCast r hr, toHexChannel_natCast g hg, toHexChannel_natCast b hb]

/-! ### Single-color buffers -/

theorem opaquePixels_solid (r g b n : Nat) :
    opaquePixels (solidBuffer r g b n)
      = List.replicate n ⟨(r : ℚ), (g : ℚ), (b : ℚ)⟩ := by
  induction n with
  | zero => rfl
  | succ m ih => simp [solidBuffer, opaquePixels, ih, List.replicate_succ]

theorem colorDistanceSq_self (p : RGB) : colorDistanceSq p p = 0 := by
  simp [colorDistanceSq]

theorem nearestAux_zero_min (p : RGB) :
    ∀ (cents : List RGB) (i best : Nat), (∀ c ∈ cents, c = p) →
      nearestAux p cents i 0 best = best := by
  intro cents
  induction cents with
  | nil => intro i best _; rfl
  | cons c cs ih =>
      intro i best h
      have hc : c = p := h c (by simp)
      subst hc
      simp only [nearestAux, colorDistanceSq_self, lt_irrefl, if_neg, if_false]
      exact ih _ _ (fun d hd => h d (by simp [hd]))

theorem nearestIdx_all_eq (p : RGB) (cents : List RGB) (hne : cents ≠ [])
    (h : ∀ c ∈ cents, c = p) : nearestIdx cents p = 0 := by
  cases cents with
  | nil => exact absurd rfl hne
  | cons c cs =>
      have hc : c = p := h c (by simp)
      subst hc
      simp only [nearestIdx, colorDistanceSq_self]
      exact nearestAux_zero_min c cs 1 0 (fun d hd => h d (by simp [hd]))

theorem length_filter_replicate {α : Type} (n : Nat) (a : α) (q : α → Bool) :
    ((List.replicate n a).filter q).length = if q a then n else 0 := by
  induction n with
  | zero => simp
  | succ m ih =>
      by_cases h : q a <;>
        simp [List.replicate_succ, List.filter_cons, h, ih]

theorem filter_replicate_true {α : Type} (n : Nat) (a : α) (q : α → Bool)
    (h : q a = true) : (List.replicate n a).filter q = List.replicate n a := by
  induction n with
  | zero => simp
  | succ m ih => simp [List.replicate_succ, List.filter_cons, h, ih]

theorem eStepCounts_solid (k n : Nat) (p : RGB) (hk : 1 ≤ k) :
    eStepCounts k (List.replicate n p) (List.replicate k p)
      = (List.range k).map (fun c => if c = 0 then n else 0) := by
  have hnear : nearestIdx (List.replicate k p) p = 0 :=
    nearestIdx_all_eq p _ (by simp; omega) (fun c hc => List.eq_of_mem_replicate hc)
  refine List.map_congr_left ?_
  intro c _
  show (assignedTo (List.replicate n p) (List.replicate k p) c).length = _
  unfold assignedTo
  rw [length_filter_replicate, hnear]
  by_cases h : c = 0
  · subst h; simp
  · simp [Ne.symm h, h]

theorem getD_replicate {α : Type} (k i : Nat) (a d : α) (h : i < k) :
    (List.replicate k a).getD i d = a := by
  induction k generalizing i with
  | zero => omega
  | succ m ih =>
      cases i with
      | zero => simp [List.replicate_succ]
      | succ j => simpa [List.replicate_succ] using ih j (by omega)

theorem mStep_solid (k n : Nat) (p : RGB) (hk : 1 ≤ k) (hn : 1 ≤ n) :
    mStep k (List.replicate n p) (List.replicate k p) = List.replicate k p := by
  have hnear : nearestIdx (List.replicate k p) p = 0 :=
    nearestIdx_all_eq p _ (by simp; omega) (fun c hc => List.eq_of_mem_replicate hc)
  have hconst : ∀ c ∈ List.range k,
      (fun c => let assigned := assignedTo (List.replicate n p) (List.replicate k p) c
        if assigned.length = 0 then (List.replicate k p).getD c ⟨0, 0, 0⟩
        else
          { r := (assigned.map RGB.r).sum / (assigned.length : ℚ),
            g := (assigned.map RGB.g).sum / (assigned.length : ℚ),
            b := (assigned.map RGB.b).sum / (assigned.length : ℚ) }) c = p := by
    intro c hc
    have hck : c < k := List.mem_range.mp hc
    by_cases h : c = 0
    · subst h
      have hass : assignedTo (List.replicate n p) (List.replicate k p) 0
          = List.replicate n p := by
        unfold assignedTo
        exact filter_replicate_true n p _ (by simp [hnear])
      simp only [hass]
      have hlen : (List.replicate n p).length = n := List.length_replicate n p
      have hne : ¬ (List.replicate n p).length = 0 := by omega
      rw [if_neg hne]
      have hsum : ∀ f : RGB → ℚ, ((List.replicate n p).map f).sum = (n : ℚ) * f p := by
        intro f
        rw [List.map_replicate, List.sum_replicate, nsmul_eq_mul]
      have hn0 : ((List.replicate n p).length : ℚ) ≠ 0 := by
        rw [hlen]; exact_mod_cast Nat.pos_iff_ne_zero.mp hn
      have hch : ∀ f : RGB → ℚ,
          ((List.replicate n p).map f).sum / ((List.replicate n p).length : ℚ) = f p := by
        intro f
        rw [hsum, hlen]
        field_simp
      cases p
      simp only [hch]
    · have hass : assignedTo (List.replicate n p) (List.replicate k p) c = [] := by
        unfold assignedTo
        rw [List.filter_eq_nil]
        intro a ha
        have := List.eq_of_mem_replicate ha
        subst this
        simp [hnear, Ne.symm h, h]
      simp only [hass, List.length_nil, if_pos rfl]
      exact getD_replicate k c p ⟨0, 0, 0⟩ hck
  unfold mStep
  rw [List.map_congr_left hconst]
  rw [List.map_const', List.length_range]

theorem kmeansLoop_solid (k n : Nat) (p : RGB) (hk : 1 ≤ k) (hn : 1 ≤ n) :
    ∀ (iters : Nat) (counts0 : List Nat), 1 ≤ iters →
      kmeansLoop k (List.replicate n p) iters (List.replicate k p, counts0)
        = (List.replicate k p,
           (List.range k).map (fun c => if c = 0 then n else 0)) := by
  intro iters
  induction iters with
  | zero => intro counts0 h; omega
  | succ m ih =>
      intro counts0 _
      show kmeansLoop k (List.replicate n p) m
          (mStep k (List.replicate n p) (List.replicate k p),
           eStepCounts k (List.replicate n p) (List.replicate k p)) = _
      rw [mStep_solid k n p hk hn, eStepCounts_solid k n p hk]
      cases m with
      | zero => rfl
      | succ m' => exact ih _ (by omega)

theorem materialize_solid (k n : Nat) (p : RGB) (hk : 1 ≤ k) (hn : 1 ≤ n) :
    materialize (List.replicate k p)
        ((List.range k).map (fun c => if c = 0 then n else 0))
      = [mkPaletteColor p n] := by
  obtain ⟨m, rfl⟩ : ∃ m, k = m + 1 := ⟨k - 1, by omega⟩
  rw [List.range_succ_eq_map]
  simp only [List.map_cons, if_pos rfl, List.map_map]
  have hmap : (List.range m).map ((fun c => if c = 0 then n else 0) ∘ Nat.succ)
      = List.replicate m 0 := by
    have : ∀ c ∈ List.range m,
        ((fun c => if c = 0 then n else 0) ∘ Nat.succ) c = 0 := by
      intro c _; simp [Function.comp]
    rw [List.map_congr_left this, List.map_const', List.length_range]
  rw [hmap, List.replicate_succ]
  show (if n = 0 then [] else [mkPaletteColor p n]) ++ materialize _ _ = _
  rw [if_neg (by omega), materialize_replicate_zero]
  rfl

/-- C2: quantizing a buffer of n ≥ 1 identical fully-opaque pixels with any
k ≥ 1 (the sampled initial centroids necessarily all equal that color, since
they are read from the buffer) yields exactly one cluster, whose population
is n and whose hex is the exact lowercase hex encoding of the color. -/
theorem quantize_single_color (r g b n k : Nat) (init : List RGB)
    (hr : r ≤ 255) (hg : g ≤ 255) (hb : b ≤ 255) (hn : 1 ≤ n) (hk : 1 ≤ k)
    (hinitlen : init.length = k)
    (hinit : ∀ c ∈ init, c = RGB.mk (r : ℚ) (g : ℚ) (b : ℚ)) :
    quantizeColorsWithInit (solidBuffer r g b n) k init
        = [mkPaletteColor ⟨(r : ℚ), (g : ℚ), (b : ℚ)⟩ n] ∧
      (mkPaletteColor ⟨(r : ℚ), (g : ℚ), (b : ℚ)⟩ n).population = n ∧
      (mkPaletteColor ⟨(r : ℚ), (g : ℚ), (b : ℚ)⟩ n).hex = exactHex r g b := by
  set p : RGB := ⟨(r : ℚ), (g : ℚ), (b : ℚ)⟩ with hp
  have hinitrep : init = List.replicate k p := by
    rw [List.eq_replicate]
    exact ⟨hinitlen, hinit⟩
  refine ⟨?_, rfl, ?_⟩
  · show sortPop (clusterPass (solidBuffer r g b n) k init) = _
    have hcp : clusterPass (solidBuffer r g b n) k init = [mkPaletteColor p n] := by
      show materialize _ _ = _
      rw [opaquePixels_solid, hinitrep, ← hp]
      rw [kmeansLoop_solid k n p hk hn maxIterations _ (by norm_num [maxIterations])]
      exact materialize_solid k n p hk hn
    rw [hcp]
    rfl
  · show rgbToHex p = exactHex r g b
    exact rgbToHex_natCast r g b hr hg hb

/-- Witness for C2: three solid red pixels, k = 2, both sampled centroids
red. -/
theorem quantize_single_color_check :
    quantizeColorsWithInit (solidBuffer 255 0 0 3) 2 [⟨255, 0, 0⟩, ⟨255, 0, 0⟩]
        = [mkPaletteColor ⟨255, 0, 0⟩ 3] ∧
      (mkPaletteColor (⟨255, 0, 0⟩ : RGB) 3).population = 3 ∧
      (mkPaletteColor (⟨255, 0, 0⟩ : RGB) 3).hex = exactHex 255 0 0 := by
  have h := quantize_single_color 255 0 0 3 2 [⟨255, 0, 0⟩, ⟨255, 0, 0⟩]
    (by decide) (by decide) (by decide) (by decide) (by decide) (by decide)
    (by intro c hc; simpa using hc)
  convert h using 3

/-! ### RGB to HSL conversion ranges -/

set_option maxHeartbeats 1000000 in
/-- C8: for channels in [0,255], `rgbToHsl` yields hue in [0,360),
saturation and lightness in [0,1]; hue = 0 and saturation = 0 exactly when
the normalized max and min channels coincide; and in the chromatic case
saturation follows the stated lightness branch. -/
theorem rgbToHsl_spec (c : RGB)
    (h0r : 0 ≤ c.r) (h1r : c.r ≤ 255) (h0g : 0 ≤ c.g) (h1g : c.g ≤ 255)
    (h0b : 0 ≤ c.b) (h1b : c.b ≤ 255) :
    0 ≤ (rgbToHsl c).h ∧ (rgbToHsl c).h < 360 ∧
      0 ≤ (rgbToHsl c).s ∧ (rgbToHsl c).s ≤ 1 ∧
      0 ≤ (rgbToHsl c).l ∧ (rgbToHsl c).l ≤ 1 ∧
      (((rgbToHsl c).h = 0 ∧ (rgbToHsl c).s = 0)
        ↔ maxChannel c = minChannel c) ∧
      (maxChannel c ≠ minChannel c →
        (rgbToHsl c).s =
          if 1/2 < (rgbToHsl c).l
          then (maxChannel c - minChannel c) / (2 - maxChannel c - minChannel c)
          else (maxChannel c - minChannel c) / (maxChannel c + minChannel c)) := by
  obtain ⟨cr, cg, cb⟩ := c
  simp only [maxChannel, minChannel] at *
  have hr0 : 0 ≤ cr / 255 := by positivity
  have hg0 : 0 ≤ cg / 255 := by positivity
  have hb0 : 0 ≤ cb / 255 := by positivity
  have hr1 : cr / 255 ≤ 1 := by rw [div_le_one (by norm_num : (0:ℚ) < 255)]; linarith
  have hg1 : cg / 255 ≤ 1 := by rw [div_le_one (by norm_num : (0:ℚ) < 255)]; linarith
  have hb1 : cb / 255 ≤ 1 := by rw [div_le_one (by norm_num : (0:ℚ) < 255)]; linarith
  set r : ℚ := cr / 255
  set g : ℚ := cg / 255
  set b : ℚ := cb / 255
  set mx : ℚ := max r (max g b) with hmxdef
  set mn : ℚ := min r (min g b) with hmndef
  have hmx1 : mx ≤ 1 := max_le hr1 (max_le hg1 hb1)
  have hmn0 : 0 ≤ mn := le_min hr0 (le_min hg0 hb0)
  have hrle : r ≤ mx := le_max_left _ _
  have hgle : g ≤ mx := le_trans (le_max_left _ _) (le_max_right _ _)
  have hble : b ≤ mx := le_trans (le_max_right _ _) (le_max_right _ _)
  have hrge : mn ≤ r := min_le_left _ _
  have hgge : mn ≤ g := le_trans (min_le_right _ _) (min_le_left _ _)
  have hbge : mn ≤ b := le_trans (min_le_right _ _) (min_le_right _ _)
  have hmnmx : mn ≤ mx := le_trans hrge hrle
  by_cases hmm : mx = mn
  · have hexp : rgbToHsl ⟨cr, cg, cb⟩ = ⟨0, 0, (mx + mn) / 2⟩ := by
      simp only [rgbToHsl]
      rw [if_pos hmm]
    rw [hexp]
    refine ⟨le_refl 0, by norm_num, le_refl 0, by norm_num, by
        show 0 ≤ (mx + mn) / 2
        positivity, by
        show (mx + mn) / 2 ≤ 1
        rw [div_le_one (by norm_num : (0:ℚ) < 2)]; linarith, ?_, ?_⟩
    · simpa using hmm
    · intro hcon; exact absurd hmm hcon
  · have hlt : mn < mx := lt_of_le_of_ne hmnmx (fun h => hmm h.symm)
    have hd : (0:ℚ) < mx - mn := by linarith
    have hexp : rgbToHsl ⟨cr, cg, cb⟩ =
        ⟨(if mx = r then (g - b) / (mx - mn) + (if g < b then 6 else 0)
          else if mx = g then (b - r) / (mx - mn) + 2
          else (r - g) / (mx - mn) + 4) / 6 * 360,
         if (mx + mn) / 2 > 1/2 then (mx - mn) / (2 - mx - mn)
         else (mx - mn) / (mx + mn),
         (mx + mn) / 2⟩ := by
      simp only [rgbToHsl]
      rw [if_neg hmm]
    set hval : ℚ :=
      if mx = r then (g - b) / (mx - mn) + (if g < b then 6 else 0)
      else if mx = g then (b - r) / (mx - mn) + 2
      else (r - g) / (mx - mn) + 4 with hhval
    set sval : ℚ :=
      if (mx + mn) / 2 > 1/2 then (mx - mn) / (2 - mx - mn)
      else (mx - mn) / (mx + mn) with hsval
    have hspos : 0 < sval := by
      rw [hsval]
      split_ifs with hcond
      · have hden : (0:ℚ) < 2 - mx - mn := by
          have : mn < 1 := lt_of_lt_of_le hlt hmx1
          linarith
        positivity
      · have hmxpos : (0:ℚ) < mx := lt_of_le_of_lt hmn0 hlt
        have hden : (0:ℚ) < mx + mn := by linarith
        positivity
    have hsle : sval ≤ 1 := by
      rw [hsval]
      split_ifs with hcond
      · have hden : (0:ℚ) < 2 - mx - mn := by
          have : mn < 1 := lt_of_lt_of_le hlt hmx1
          linarith
        rw [div_le_one hden]; linarith
      · have hmxpos : (0:ℚ) < mx := lt_of_le_of_lt hmn0 hlt
        have hden : (0:ℚ) < mx + mn := by linarith
        rw [div_le_one hden]; linarith
    have hhrange : 0 ≤ hval ∧ hval < 6 := by
      rw [hhval]
      split_ifs with hc1 hc2 hc3
      · -- max = r, g < b
        have hub : (g - b) / (mx - mn) < 0 := by
          apply div_neg_of_neg_of_pos _ hd
          linarith
        have hlb : (-1 : ℚ) ≤ (g - b) / (mx - mn) := by
          rw [le_div_iff₀ hd]
          linarith
        constructor <;> linarith
      · -- max = r, b ≤ g
        have hlb : (0:ℚ) ≤ (g - b) / (mx - mn) := by
          apply div_nonneg _ (le_of_lt hd)
          linarith
        have hub : (g - b) / (mx - mn) ≤ 1 := by
          rw [div_le_one hd]
          have : g ≤ mx := hgle
          have : mn ≤ b := hbge
          linarith
        constructor <;> linarith
      · -- max = g
        have hub : (b - r) / (mx - mn) ≤ 1 := by
          rw [div_le_one hd]; linarith
        have hlb : (-1 : ℚ) ≤ (b - r) / (mx - mn) := by
          rw [le_div_iff₀ hd]; linarith
        constructor <;> linarith
      · -- max = b (the only remaining channel)
        have hub : (r - g) / (mx - mn) ≤ 1 := by
          rw [div_le_one hd]; linarith
        have hlb : (-1 : ℚ) ≤ (r - g) / (mx - mn) := by
          rw [le_div_iff₀ hd]; linarith
        constructor <;> linarith
    rw [hexp]
    refine ⟨?_, ?_, le_of_lt hspos, hsle, by
        show 0 ≤ (mx + mn) / 2
        positivity, by
        show (mx + mn) / 2 ≤ 1
        rw [div_le_one (by norm_num : (0:ℚ) < 2)]; linarith, ?_, ?_⟩
    · show 0 ≤ hval / 6 * 360
      have : hval / 6 * 360 = hval * 60 := by ring
      rw [this]
      linarith [hhrange.1]
    · show hval / 6 * 360 < 360
      have : hval / 6 * 360 = hval * 60 := by ring
      rw [this]
      linarith [hhrange.2]
    · show (hval / 6 * 360 = 0 ∧ sval = 0) ↔ mx = mn
      constructor
      · intro hcon
        exact absurd hcon.2 (ne_of_gt hspos)
      · intro hcon; exact absurd hcon hmm
    · intro _
      rfl

/-- Witness for C8 at the concrete color (100, 50, 25). -/
theorem rgbToHsl_spec_check :
    0 ≤ (rgbToHsl ⟨100, 50, 25⟩).h ∧ (rgbToHsl ⟨100, 50, 25⟩).h < 360 ∧
      0 ≤ (rgbToHsl ⟨100, 50, 25⟩).s ∧ (rgbToHsl ⟨100, 50, 25⟩).s ≤ 1 ∧
      0 ≤ (rgbToHsl ⟨100, 50, 25⟩).l ∧ (rgbToHsl ⟨100, 50, 25⟩).l ≤ 1 ∧
      (((rgbToHsl ⟨100, 50, 25⟩).h = 0 ∧ (rgbToHsl ⟨100, 50, 25⟩).s = 0)
        ↔ maxChannel ⟨100, 50, 25⟩ = minChannel ⟨100, 50, 25⟩) ∧
      (maxChannel ⟨100, 50, 25⟩ ≠ minChannel ⟨100, 50, 25⟩ →
        (rgbToHsl ⟨100, 50, 25⟩).s =
          if 1/2 < (rgbToHsl ⟨100, 50, 25⟩).l
          then (maxChannel ⟨100, 50, 25⟩ - minChannel ⟨100, 50, 25⟩)
            / (2 - maxChannel ⟨100, 50, 25⟩ - minChannel ⟨100, 50, 25⟩)
          else (maxChannel ⟨100, 50, 25⟩ - minChannel ⟨100, 50, 25⟩)
            / (maxChannel ⟨100, 50, 25⟩ + minChannel ⟨100, 50, 25⟩)) :=
  rgbToHsl_spec ⟨100, 50, 25⟩ (by norm_num) (by norm_num) (by norm_num)
    (by norm_num) (by norm_num) (by norm_num)

/-! ### Determinism -/

/-- C9: the quantizer consumes only the first k random draws (the centroid
initialization); two runs whose random sources agree there produce identical
cluster sequences, and the classification stage is a pure function of its
cluster input. -/
theorem pipeline_deterministic (pixels : List Nat) (k : Nat) (r1 r2 : Nat → ℚ)
    (hagree : ∀ i < k, r1 i = r2 i) :
    quantizeColorsRand pixels k r1 = quantizeColorsRand pixels k r2 ∧
      ∀ colors1 colors2 : List PaletteColor, colors1 = colors2 →
        classifyPalette colors1 = classifyPalette colors2 := by
  constructor
  · unfold quantizeColorsRand
    have hinit : sampleInit pixels k r1 = sampleInit pixels k r2 := by
      unfold sampleInit
      refine List.map_congr_left ?_
      intro i hi
      rw [hagree i (List.mem_range.mp hi)]
    rw [hinit]
  · intro a b h
    rw [h]

/-- Witness for C9: two streams that agree on the first two draws, a
concrete two-pixel buffer, and a concrete classification input. -/
theorem pipeline_deterministic_check :
    quantizeColorsRand [0, 0, 200, 255, 250, 250, 250, 255] 2 (fun _ => 0)
        = quantizeColorsRand [0, 0, 200, 255, 250, 250, 250, 255] 2
            (fun i => if i < 2 then 0 else 1) ∧
      classifyPalette (quantizeColorsWithInit [255, 0, 0, 255] 8 [⟨255, 0, 0⟩])
          = classifyPalette (quantizeColorsWithInit [255, 0, 0, 255] 8 [⟨255, 0, 0⟩]) := by
  have h := pipeline_deterministic [0, 0, 200, 255, 250, 250, 250, 255] 2
    (fun _ => 0) (fun i => if i < 2 then 0 else 1)
    (by intro i hi; simp [hi])
  exact ⟨h.1, h.2 _ _ rfl⟩

/-! ### The vibrant role selection -/

theorem roleStep_vib (domPop : ℚ) (acc : RoleAcc) (c : PaletteColor) :
    ((roleStep domPop acc c).bestVibrant, (roleStep domPop acc c).maxVibrantScore)
      = vibFold domPop (acc.bestVibrant, acc.maxVibrantScore) c := by
  simp only [roleStep, vibFold, vibScore]
  split_ifs <;> rfl

theorem foldl_roleStep_vib (domPop : ℚ) (l : List PaletteColor) :
    ∀ acc : RoleAcc,
      ((l.foldl (roleStep domPop) acc).bestVibrant,
       (l.foldl (roleStep domPop) acc).maxVibrantScore)
        = l.foldl (vibFold domPop) (acc.bestVibrant, acc.maxVibrantScore) := by
  induction l with
  | nil => intro acc; rfl
  | cons c cs ih =>
      intro acc
      simp only [List.foldl_cons]
      rw [ih (roleStep domPop acc c), roleStep_vib]

theorem vibrantEligibleCode_true (c : PaletteColor)
    (h : c.hsl.s > 0.3 ∧ c.hsl.l > 0.3 ∧ c.hsl.l < 0.8) :
    vibrantEligibleCode c = true := by
  unfold vibrantEligibleCode
  exact decide_eq_true h

theorem vibrantEligibleCode_false (c : PaletteColor)
    (h : ¬ (c.hsl.s > 0.3 ∧ c.hsl.l > 0.3 ∧ c.hsl.l < 0.8)) :
    vibrantEligibleCode c = false := by
  unfold vibrantEligibleCode
  exact decide_eq_false h

theorem vibAfter_none (d : ℚ) (st : Option PaletteColor × ℚ) :
    vibAfter d st none = st := rfl

theorem vibAfter_some_pair (d : ℚ) (o : Option PaletteColor) (m : ℚ) (y : PaletteColor) :
    vibAfter d (o, m) (some y)
      = if m < vibScore d y then (some y, vibScore d y) else (o, m) := rfl

theorem vibPick_none (d : ℚ) : vibPick d none = (none, -1) := rfl

theorem vibPick_some (d : ℚ) (y : PaletteColor) :
    vibPick d (some y) = (some y, vibScore d y) := rfl

theorem firstStrictMax_cons_none (score : PaletteColor → ℚ) (c : PaletteColor)
    (xs : List PaletteColor) (h : firstStrictMax score xs = none) :
    firstStrictMax score (c :: xs) = some c := by
  unfold firstStrictMax
  rw [h]

theorem firstStrictMax_cons_some (score : PaletteColor → ℚ) (c : PaletteColor)
    (xs : List PaletteColor) (y : PaletteColor) (h : firstStrictMax score xs = some y) :
    firstStrictMax score (c :: xs)
      = if score c < score y then some y else some c := by
  unfold firstStrictMax
  rw [h]

theorem vibFold_run_some (domPop : ℚ) (l : List PaletteColor) :
    ∀ b : PaletteColor,
      l.foldl (vibFold domPop) (some b, vibScore domPop b)
        = vibAfter domPop (some b, vibScore domPop b)
            (firstStrictMax (vibScore domPop) (l.filter vibrantEligibleCode)) := by
  induction l with
  | nil => intro b; rfl
  | cons c cs ih =>
      intro b
      rw [List.foldl_cons]
      by_cases hel : c.hsl.s > 0.3 ∧ c.hsl.l > 0.3 ∧ c.hsl.l < 0.8
      · rw [show (c :: cs).filter vibrantEligibleCode
            = c :: cs.filter vibrantEligibleCode by
          simp [List.filter_cons, vibrantEligibleCode_true c hel]]
        by_cases hgt : vibScore domPop b < vibScore domPop c
        · rw [show vibFold domPop (some b, vibScore domPop b) c
              = (some c, vibScore domPop c) by
            unfold vibFold
            rw [if_pos hel, if_pos hgt]]
          rw [ih c]
          rcases hfm : firstStrictMax (vibScore domPop) (cs.filter vibrantEligibleCode)
            with _ | y
          · rw [firstStrictMax_cons_none _ _ _ hfm, vibAfter_none,
              vibAfter_some_pair, if_pos hgt]
          · rw [firstStrictMax_cons_some _ c _ y hfm, vibAfter_some_pair]
            by_cases hcy : vibScore domPop c < vibScore domPop y
            · rw [if_pos hcy, if_pos hcy, vibAfter_some_pair,
                if_pos (lt_trans hgt hcy)]
            · rw [if_neg hcy, if_neg hcy, vibAfter_some_pair, if_pos hgt]
        · rw [show vibFold domPop (some b, vibScore domPop b) c
              = (some b, vibScore domPop b) by
            unfold vibFold
            rw [if_pos hel, if_neg hgt]]
          rw [ih b]
          rcases hfm : firstStrictMax (vibScore domPop) (cs.filter vibrantEligibleCode)
            with _ | y
          · rw [firstStrictMax_cons_none _ _ _ hfm, vibAfter_none,
              vibAfter_some_pair, if_neg hgt]
          · rw [firstStrictMax_cons_some _ c _ y hfm]
            by_cases hcy : vibScore domPop c < vibScore domPop y
            · rw [if_pos hcy]
            · rw [if_neg hcy, vibAfter_some_pair, vibAfter_some_pair, if_neg hgt,
                if_neg (show ¬ vibScore domPop b < vibScore domPop y from by
                  push_neg at hgt hcy ⊢
                  linarith)]
      · rw [show (c :: cs).filter vibrantEligibleCode
            = cs.filter vibrantEligibleCode by
          simp [List.filter_cons, vibrantEligibleCode_false c hel]]
        rw [show vibFold domPop (some b, vibScore domPop b) c
            = (some b, vibScore domPop b) by
          unfold vibFold
          rw [if_neg hel]]
        exact ih b

theorem vibFold_run_init (domPop : ℚ) (hpos : 0 < domPop) (l : List PaletteColor) :
    l.foldl (vibFold domPop) (none, -1)
      = vibPick domPop
          (firstStrictMax (vibScore domPop) (l.filter vibrantEligibleCode)) := by
  induction l with
  | nil => rfl
  | cons c cs ih =>
      rw [List.foldl_cons]
      by_cases hel : c.hsl.s > 0.3 ∧ c.hsl.l > 0.3 ∧ c.hsl.l < 0.8
      · have hscore : (-1 : ℚ) < vibScore domPop c := by
          have hx : (0 : ℚ) ≤ (c.population : ℚ) / domPop :=
            div_nonneg (Nat.cast_nonneg _) (le_of_lt hpos)
          have hs3 : (0.3 : ℚ) < c.hsl.s := hel.1
          unfold vibScore
          nlinarith
        rw [show (c :: cs).filter vibrantEligibleCode
            = c :: cs.filter vibrantEligibleCode by
          simp [List.filter_cons, vibrantEligibleCode_true c hel]]
        rw [show vibFold domPop (none, -1) c = (some c, vibScore domPop c) by
          unfold vibFold
          rw [if_pos hel, if_pos (show vibScore domPop c > (-1 : ℚ) from hscore)]]
        rw [vibFold_run_some domPop cs c]
        rcases hfm : firstStrictMax (vibScore domPop) (cs.filter vibrantEligibleCode)
          with _ | y
        · rw [firstStrictMax_cons_none _ _ _ hfm, vibAfter_none, vibPick_some]
        · rw [firstStrictMax_cons_some _ c _ y hfm, vibAfter_some_pair]
          by_cases hcy : vibScore domPop c < vibScore domPop y
          · rw [if_pos hcy, if_pos hcy, vibPick_some]
          · rw [if_neg hcy, if_neg hcy, vibPick_some]
      · rw [show (c :: cs).filter vibrantEligibleCode
            = cs.filter vibrantEligibleCode by
          simp [List.filter_cons, vibrantEligibleCode_false c hel]]
        rw [show vibFold domPop (none, -1) c = (none, -1) by
          unfold vibFold
          rw [if_neg hel]]
        exact ih

theorem classify_vibrant_eq (dominant : PaletteColor) (rest : List PaletteColor) :
    (classifyPalette (dominant :: rest)).map Palette.vibrant
      = some (some (vibChoiceCode dominant rest)) := by
  have hpos : (0 : ℚ)
      < (if dominant.population = 0 then 1 else (dominant.population : ℚ)) := by
    split_ifs with h
    · norm_num
    · exact_mod_cast Nat.pos_of_ne_zero h
  have hacc : ((dominant :: rest).foldl
        (roleStep (if dominant.population = 0 then 1 else (dominant.population : ℚ)))
        initRoleAcc).bestVibrant
      = firstStrictMax
          (vibScore (if dominant.population = 0 then 1 else (dominant.population : ℚ)))
          ((dominant :: rest).filter vibrantEligibleCode) := by
    have h := foldl_roleStep_vib
      (if dominant.population = 0 then 1 else (dominant.population : ℚ))
      (dominant :: rest) initRoleAcc
    have h1 : ((dominant :: rest).foldl
          (roleStep (if dominant.population = 0 then 1 else (dominant.population : ℚ)))
          initRoleAcc).bestVibrant
        = ((dominant :: rest).foldl
            (vibFold (if dominant.population = 0 then 1 else (dominant.population : ℚ)))
            (none, -1)).1 := by
      have h2 := congrArg Prod.fst h
      simpa [initRoleAcc] using h2
    rw [h1, vibFold_run_init _ hpos]
    cases firstStrictMax
        (vibScore (if dominant.population = 0 then 1 else (dominant.population : ℚ)))
        ((dominant :: rest).filter vibrantEligibleCode) with
    | none => rfl
    | some y => rfl
  simp only [classifyPalette, Option.map]
  rw [hacc]
  rfl

/-- C7: for a non-empty cluster list whose saturations do not exceed 1 (true
of everything `quantizeColors` produces), the classifier's vibrant role is
exactly the specification's selection: the first-seen candidate of strictly
highest score `saturation * (1 + popRatio * 0.5)` among those with saturation
in (0.3, 1] and lightness in (0.3, 0.8), falling back to `dominant` when
`dominant.isVibrant`, else to the second-ranked color when one exists, else
to `dominant`; in particular vibrant is never null. -/
theorem classify_vibrant_correct (dominant : PaletteColor) (rest : List PaletteColor)
    (hs : ∀ c ∈ dominant :: rest, c.hsl.s ≤ 1) :
    (classifyPalette (dominant :: rest)).map Palette.vibrant
      = some (some (vibrantSpec dominant rest)) := by
  rw [classify_vibrant_eq]
  have hfil : (dominant :: rest).filter vibrantEligibleCode
      = (dominant :: rest).filter vibrantEligible := by
    apply List.filter_congr
    intro c hc
    have h1 := hs c hc
    unfold vibrantEligible vibrantEligibleCode
    apply decide_eq_decide.mpr
    constructor
    · rintro ⟨ha, hb, hc'⟩; exact ⟨ha, h1, hb, hc'⟩
    · rintro ⟨ha, _, hb, hc'⟩; exact ⟨ha, hb, hc'⟩
  unfold vibChoiceCode vibrantSpec
  rw [hfil]

/-- Witness for C7 on a concrete two-color cluster list. -/
theorem classify_vibrant_correct_check :
    (classifyPalette [wVibrant, wMild]).map Palette.vibrant
      = some (some (vibrantSpec wVibrant [wMild])) :=
  classify_vibrant_correct wVibrant [wMild] (by
    intro c hc
    fin_cases hc <;> norm_num [wVibrant, wMild])

/-- C10: when the clusters carry the quantizer's isVibrant flag (saturation
> 0.5 and lightness in (0.3, 0.8)) and none of them passes the classifier's
weaker vibrant eligibility (saturation > 0.3 and lightness in (0.3, 0.8)),
the dominant's isVibrant flag is necessarily false, so the
`dominant.isVibrant` fallback branch is unreachable and the vibrant role
resolves to the second-ranked color when one exists, else to dominant. -/
theorem vibrant_fallback_second (dominant : PaletteColor) (rest : List PaletteColor)
    (hflag : ∀ c ∈ dominant :: rest,
      c.isVibrant = decide (c.hsl.s > 0.5 ∧ c.hsl.l > 0.3 ∧ c.hsl.l < 0.8))
    (hnone : ∀ c ∈ dominant :: rest,
      ¬ (c.hsl.s > 0.3 ∧ c.hsl.l > 0.3 ∧ c.hsl.l < 0.8)) :
    dominant.isVibrant = false ∧
      (classifyPalette (dominant :: rest)).map Palette.vibrant
        = some (some (rest.headD dominant)) := by
  have hdom : dominant.isVibrant = false := by
    rw [hflag dominant (by simp)]
    apply decide_eq_false
    intro hcon
    refine hnone dominant (by simp) ⟨?_, hcon.2.1, hcon.2.2⟩
    have h5 : (0.3 : ℚ) < 0.5 := by norm_num
    exact lt_trans h5 hcon.1
  refine ⟨hdom, ?_⟩
  rw [classify_vibrant_eq]
  have hfil : (dominant :: rest).filter vibrantEligibleCode = [] := by
    rw [List.filter_eq_nil_iff]
    intro c hc
    rw [vibrantEligibleCode_false c (hnone c hc)]
    simp
  unfold vibChoiceCode
  rw [hfil]
  show some (some (if dominant.isVibrant then dominant else rest.headD dominant))
      = some (some (rest.headD dominant))
  rw [hdom]
  simp

/-- Witness for C10 on a concrete two-gray cluster list. -/
theorem vibrant_fallback_second_check :
    wGray.isVibrant = false ∧
      (classifyPalette [wGray, wLightGray]).map Palette.vibrant
        = some (some ([wLightGray].headD wGray)) :=
  vibrant_fallback_second wGray [wLightGray]
    (by
      intro c hc
      fin_cases hc <;> (symm; apply decide_eq_false) <;> norm_num [wGray, wLightGray])
    (by
      intro c hc
      fin_cases hc <;> norm_num [wGray, wLightGray])

/-- Supporting fact for C10's premise: every cluster `quantizeColors`
outputs carries the isVibrant flag computed from its own HSL by the
quantizer's rule. -/
theorem quantize_isVibrant_flag (pixels : List Nat) (k : Nat) (init : List RGB) :
    ∀ c ∈ quantizeColorsWithInit pixels k init,
      c.isVibrant = decide (c.hsl.s > 0.5 ∧ c.hsl.l > 0.3 ∧ c.hsl.l < 0.8) := by
  intro c hc
  have hc' := (sortPop_perm (clusterPass pixels k init)).mem_iff.mp hc
  have hmk : ∀ (cents : List RGB) (counts : List Nat),
      ∀ x ∈ materialize cents counts, ∃ a n, x = mkPaletteColor a n := by
    intro cents
    induction cents with
    | nil => intro counts x hx; simp [materialize] at hx
    | cons a as ih =>
        intro counts x hx
        cases counts with
        | nil => simp [materialize] at hx
        | cons n ns =>
            simp only [materialize, List.mem_append] at hx
            rcases hx with hx | hx
            · by_cases h : n = 0
              · simp [h] at hx
              · simp only [if_neg h, List.mem_singleton] at hx
                exact ⟨a, n, hx⟩
            · exact ih ns x hx
  obtain ⟨a, n, rfl⟩ := hmk _ _ c hc'
  rfl

end SkiaColor
